import Mathlib

/-!
Verification development for the cert-manager webhook solver in `main.go`
(repository xzzpig/cert-manager-webhook-dns-manager).

The Go program is embedded shallowly:

* `getRecordName` is translated character-for-character from the Go function
  of the same name (`strings.ToLower`, the regexp `[^a-z0-9-]` replacement,
  `strings.TrimRight(_, "-")`, the `"acme-"` prefixing).  Strings are handled
  at the `List Char` level; lowering is the ASCII fragment of
  `strings.ToLower` (`Char.toLower`), which agrees with Go on every character
  that can survive the `[a-z0-9-]` filter.
* `loadConfig` decodes an optional JSON blob into `customDNSProviderConfig`.
  The byte blob is modelled as `RawJSON`: either syntactically malformed or a
  parsed JSON value; `unmarshalConfig` reproduces the semantics of Go's
  `encoding/json.Unmarshal` into the two-field struct (JSON `null` is a
  no-op, objects fill the `labels`/`extra` fields with member keys matched
  case-insensitively, unknown members are ignored, a `null` map member
  leaves the zero-value element, and map member values that are neither
  strings nor `null`, or non-object/non-null payloads, are type errors).
  `map[string]string` values are modelled as association lists.
* The Kubernetes client used by `Present`/`CleanUp` is modelled as an
  in-memory store of `DnsRecord` objects keyed by (namespace, name), the only
  contract the code relies on: `Get` (not-found as `none`), `Create` (assigns
  a fresh non-empty UID), `Update`, `Delete`.
* `presentT`/`cleanUpT` are the translations of `Present`/`CleanUp`; besides
  the resulting store they also return the trace of store operations
  performed, so that claims about which store calls happen are statable.
-/

/-- One character of Go's `strings.ToLower` (ASCII fragment). -/
def lowerChar (c : Char) : Char := c.toLower

/-- One character of the regexp replacement `[^a-z0-9-]` → `"-"`:
characters outside lower-case-alphanumeric-or-hyphen become `'-'`. -/
def sanitizeChar (c : Char) : Char :=
  if ('a' ≤ c ∧ c ≤ 'z') ∨ ('0' ≤ c ∧ c ≤ '9') ∨ c = '-' then c else '-'

/-- `strings.TrimRight(s, "-")`: remove all trailing `'-'` characters. -/
def trimRightDashes (s : String) : String :=
  String.mk ((s.data.reverse.dropWhile (fun c => c == '-')).reverse)

/-- Translation of `getRecordName` (main.go:193-198): lower-case, replace
every character outside `[a-z0-9-]` with `'-'`, strip trailing `'-'`,
prepend `"acme-"`. -/
def getRecordName (fqdn : String) : String :=
  let lowered := String.mk (fqdn.data.map lowerChar)
  let replaced := String.mk (lowered.data.map sanitizeChar)
  let trimmed := trimRightDashes replaced
  "acme-" ++ trimmed

/-- Reference definition of the name deriver, written from the spec's words
(§4.1): "lower-case the input; replace every character outside `[a-z0-9-]`
with `-`; strip trailing `-` characters; prefix with a fixed literal
(`"acme-"`)".  Kept separate from `getRecordName` so the two can be
compared. -/
def deriveRecordNameSpec (d : String) : String :=
  let lowered := d.data.map Char.toLower
  let replaced := lowered.map (fun c =>
    if ('a' ≤ c ∧ c ≤ 'z') ∨ ('0' ≤ c ∧ c ≤ '9') ∨ c = '-' then c else '-')
  let stripped := (replaced.reverse.dropWhile (fun c => c == '-')).reverse
  "acme-" ++ String.mk stripped

/-- A parsed JSON value (model of the bytes handed to `json.Unmarshal`). -/
inductive JsonValue where
  | null
  | bool (b : Bool)
  | num (n : Int)
  | str (s : String)
  | arr (elems : List JsonValue)
  | obj (fields : List (String × JsonValue))

/-- The raw per-challenge configuration blob (`*extapi.JSON`'s `Raw` bytes):
either not syntactically valid JSON, or the JSON value it denotes. -/
inductive RawJSON where
  | malformed
  | value (v : JsonValue)

/-- Translation of `customDNSProviderConfig` (main.go:67-70); the Go
`map[string]string` fields are association lists, the zero value (Go nil
maps) is the empty list. -/
structure customDNSProviderConfig where
  labels : List (String × String)
  extra : List (String × String)
  deriving DecidableEq, Repr

/-- `strings.EqualFold` on member keys (ASCII fragment, the same
simplification as `Char.toLower` for `strings.ToLower`): case-insensitive
equality. -/
def equalFold (a b : String) : Bool :=
  a.data.map Char.toLower == b.data.map Char.toLower

/-- `json.Unmarshal` of the members of a JSON object into `map[string]string`:
a JSON string member is stored verbatim; a JSON `null` member is accepted
("unmarshaling a JSON null into any other Go type has no effect"), leaving
the zero-value `""` element at that key; any other member value is a type
error. -/
def decodeStringFields : List (String × JsonValue) → Except String (List (String × String))
  | [] => .ok []
  | (k, v) :: rest =>
    match v with
    | .str sv =>
      match decodeStringFields rest with
      | .error e => .error e
      | .ok m => .ok ((k, sv) :: m)
    | .null =>
      match decodeStringFields rest with
      | .error e => .error e
      | .ok m => .ok ((k, "") :: m)
    | _ => .error "json: cannot unmarshal value into Go value of type string"

/-- `json.Unmarshal` of a JSON value into `map[string]string`:
`null` leaves the map nil, an object is decoded member-wise, anything else is
a type error. -/
def decodeStringMap : JsonValue → Except String (List (String × String))
  | .null => .ok []
  | .obj fields => decodeStringFields fields
  | _ => .error "json: cannot unmarshal value into Go value of type map[string]string"

/-- `json.Unmarshal` of the members of a JSON object into
`customDNSProviderConfig`: member keys are matched to the `labels`/`extra`
fields preferring an exact match but also accepting a case-insensitive
match (Go's documented field resolution; since neither tag folds to the
other, this is equivalent to matching each key by `equalFold` directly);
matched members are decoded as string maps, unknown members are ignored. -/
def applyConfigFields (cfg : customDNSProviderConfig) :
    List (String × JsonValue) → Except String customDNSProviderConfig
  | [] => .ok cfg
  | (k, v) :: rest =>
    if equalFold k "labels" then
      match decodeStringMap v with
      | .error e => .error e
      | .ok m => applyConfigFields { cfg with labels := m } rest
    else if equalFold k "extra" then
      match decodeStringMap v with
      | .error e => .error e
      | .ok m => applyConfigFields { cfg with extra := m } rest
    else
      applyConfigFields cfg rest

/-- `json.Unmarshal(raw, &cfg)` for `cfg : customDNSProviderConfig`:
JSON `null` is a no-op on the zero value, a JSON object fills the struct
fields, any other value is a type error. -/
def unmarshalConfig : JsonValue → Except String customDNSProviderConfig
  | .null => .ok { labels := [], extra := [] }
  | .obj fields => applyConfigFields { labels := [], extra := [] } fields
  | _ => .error "json: cannot unmarshal value into Go value of type main.customDNSProviderConfig"

/-- Translation of `loadConfig` (main.go:180-191): a nil `cfgJSON` yields the
zero config with no error; otherwise the raw bytes are unmarshalled and any
failure is wrapped as the decode error. -/
def loadConfig : Option RawJSON → Except String customDNSProviderConfig
  | none => .ok { labels := [], extra := [] }
  | some .malformed => .error "error decoding solver config: invalid character"
  | some (.value v) =>
    match unmarshalConfig v with
    | .error e => .error ("error decoding solver config: " ++ e)
    | .ok cfg => .ok cfg

/-- The spec of the payload type accepted by the struct decoder (the
"two-mapping shape" of §6, in the sense of `json.Unmarshal`): `null`, or an
object whose `labels`/`extra` members (when present) are valid string-map
payloads — `null`, or objects whose member values are strings or `null`;
unknown members are ignored, not rejected. -/
def isStringMapJson : JsonValue → Bool
  | .null => true
  | .obj fields =>
    fields.all (fun p => match p.2 with | .str _ => true | .null => true | _ => false)
  | _ => false

/-- See `isStringMapJson`: the full two-mapping shape of the config blob;
member keys are matched to the two field tags case-insensitively, exactly
as the decoder does. -/
def matchesTwoMappingShape : JsonValue → Bool
  | .null => true
  | .obj fields =>
    fields.all (fun p =>
      if equalFold p.1 "labels" ∨ equalFold p.1 "extra" then isStringMapJson p.2 else true)
  | _ => false

/-- The `Spec` block of the `dnsv1.Record` resource, restricted to the fields
the solver touches (main.go:106-109). -/
structure RecordSpec where
  name : String
  «type» : String
  value : String
  extra : List (String × String)
  deriving DecidableEq, Repr

/-- The `dnsv1.Record` resource, restricted to the metadata fields the solver
touches: `Name`, `Namespace`, `Labels`, `UID` (empty iff the object does not
come from the store) and the spec. -/
structure DnsRecord where
  name : String
  «namespace» : String
  labels : List (String × String)
  uid : String
  spec : RecordSpec
  deriving DecidableEq, Repr

/-- The Go zero value `dnsv1.Record{}`. -/
def emptyDnsRecord : DnsRecord :=
  { name := "", «namespace» := "", labels := [], uid := "",
    spec := { name := "", «type» := "", value := "", extra := [] } }

/-- The store key of an object: its (namespace, name) pair. -/
def recordKey (r : DnsRecord) : String × String := (r.«namespace», r.name)

/-- The in-memory model of the Kubernetes API server, as far as the solver's
`client.Client` uses it: the stored `Record` objects plus a counter for
assigning fresh UIDs on creation. -/
structure Store where
  records : List DnsRecord
  nextUid : Nat
  deriving DecidableEq, Repr

/-- `client.Get` with key (namespace, name): the stored object with that key,
or `none` (the not-found error). -/
def Store.lookup (s : Store) (key : String × String) : Option DnsRecord :=
  s.records.find? (fun r => decide (recordKey r = key))

/-- `client.Create`: fails when an object with the same key already exists,
otherwise stores the object with a freshly assigned non-empty UID. -/
def Store.create (s : Store) (r : DnsRecord) : Except String Store :=
  match s.lookup (recordKey r) with
  | some _ => .error "AlreadyExists"
  | none =>
    .ok { records := s.records ++ [{ r with uid := "uid-" ++ toString s.nextUid }],
          nextUid := s.nextUid + 1 }

/-- `client.Update`: fails when no object with the key exists, otherwise
replaces the stored object with the given one. -/
def Store.update (s : Store) (r : DnsRecord) : Except String Store :=
  match s.lookup (recordKey r) with
  | none => .error "NotFound"
  | some _ =>
    .ok { s with records :=
            s.records.map (fun x => if recordKey x = recordKey r then r else x) }

/-- `client.Delete`: fails when no object with the key exists, otherwise
removes the stored object(s) with that key. -/
def Store.delete (s : Store) (r : DnsRecord) : Except String Store :=
  match s.lookup (recordKey r) with
  | none => .error "NotFound"
  | some _ =>
    .ok { s with records :=
            s.records.filter (fun x => !(decide (recordKey x = recordKey r))) }

/-- The `v1alpha1.ChallengeRequest` fields the solver reads: `ResolvedFQDN`,
`Key` (the token), `ResourceNamespace`, `UID` (diagnostics only) and the
optional `Config` blob. -/
structure ChallengeRequest where
  resolvedFQDN : String
  key : String
  resourceNamespace : String
  uid : String
  config : Option RawJSON

/-- The errors `Present`/`CleanUp` can return: the wrapped config-decode
error, or an error propagated from a store operation. -/
inductive SolverError where
  | configDecode (msg : String)
  | store (msg : String)
  deriving DecidableEq, Repr

/-- One store call, for tracing which operations `Present`/`CleanUp`
perform. -/
inductive StoreOp where
  | get (key : String × String)
  | create (key : String × String)
  | update (key : String × String)
  | delete (key : String × String)
  deriving DecidableEq, Repr

/-- The value `Spec.Name` ends up with in `Present` (main.go:106, 111-114):
the FQDN, with one trailing dot removed when present
(`strings.HasSuffix(fqdn, ".")` is the last-character test, stated over the
character list). -/
def strippedFQDN (fqdn : String) : String :=
  if fqdn.data.getLast? = some '.' then fqdn.dropRight 1 else fqdn

/-- The field assignments of `Present` (main.go:104-114) applied to a base
record (the fetched one, or the zero record carrying only the derived name):
namespace, labels, spec name (trailing dot stripped), type `"TXT"`, value and
extra are overwritten; name and UID are untouched. -/
def desiredRecord (ch : ChallengeRequest) (cfg : customDNSProviderConfig)
    (base : DnsRecord) : DnsRecord :=
  { base with
      «namespace» := ch.resourceNamespace,
      labels := cfg.labels,
      spec := { base.spec with
          name := strippedFQDN ch.resolvedFQDN,
          «type» := "TXT",
          value := ch.key,
          extra := cfg.extra } }

/-- Translation of `Present` (main.go:87-128), additionally returning the
trace of store operations: load the config (aborting on decode failure
before any store access), fetch the record at (namespace,
`getRecordName fqdn`) ignoring not-found, overwrite the desired fields
(see `desiredRecord`), then create when the UID is empty and update
otherwise. -/
def presentT (s : Store) (ch : ChallengeRequest) :
    List StoreOp × Except SolverError Store :=
  match loadConfig ch.config with
  | .error e => ([], .error (.configDecode e))
  | .ok cfg =>
    let name := getRecordName ch.resolvedFQDN
    let key := (ch.resourceNamespace, name)
    let base : DnsRecord :=
      match s.lookup key with
      | some found => found
      | none => { emptyDnsRecord with name := name }
    let dnsRecord : DnsRecord := desiredRecord ch cfg base
    if dnsRecord.uid = "" then
      match s.create dnsRecord with
      | .error e => ([.get key, .create key], .error (.store e))
      | .ok s2 => ([.get key, .create key], .ok s2)
    else
      match s.update dnsRecord with
      | .error e => ([.get key, .update key], .error (.store e))
      | .ok s2 => ([.get key, .update key], .ok s2)

/-- `Present` without the operation trace. -/
def present (s : Store) (ch : ChallengeRequest) : Except SolverError Store :=
  (presentT s ch).2

/-- Translation of `CleanUp` (main.go:136-152), additionally returning the
trace of store operations: fetch the record at the derived key; not-found is
success without further store calls (`client.IgnoreNotFound`), otherwise the
fetched record is deleted. -/
def cleanUpT (s : Store) (ch : ChallengeRequest) :
    List StoreOp × Except SolverError Store :=
  let name := getRecordName ch.resolvedFQDN
  let key := (ch.resourceNamespace, name)
  match s.lookup key with
  | none => ([.get key], .ok s)
  | some dnsRecord =>
    match s.delete dnsRecord with
    | .error e => ([.get key, .delete (recordKey dnsRecord)], .error (.store e))
    | .ok s2 => ([.get key, .delete (recordKey dnsRecord)], .ok s2)

/-- `CleanUp` without the operation trace. -/
def cleanUp (s : Store) (ch : ChallengeRequest) : Except SolverError Store :=
  (cleanUpT s ch).2

/-- Number of stored records at a given key. -/
def Store.countAt (s : Store) (key : String × String) : Nat :=
  s.records.countP (fun r => decide (recordKey r = key))

/-- Well-formedness of a store reachable through the API server: every stored
object carries a non-empty UID and keys are unique. -/
def Store.WF (s : Store) : Prop :=
  (∀ r ∈ s.records, r.uid ≠ "") ∧ (s.records.map recordKey).Nodup

/-! ### Helper lemmas about the store model -/

theorem lookup_eq_none_iff (s : Store) (key : String × String) :
    s.lookup key = none ↔ ∀ r ∈ s.records, recordKey r ≠ key := by
  simp [Store.lookup, List.find?_eq_none]

theorem recordKey_of_lookup_some {s : Store} {key : String × String} {r : DnsRecord}
    (h : s.lookup key = some r) : recordKey r = key := by
  unfold Store.lookup at h
  simpa using List.find?_some h

theorem mem_of_lookup_some {s : Store} {key : String × String} {r : DnsRecord}
    (h : s.lookup key = some r) : r ∈ s.records := by
  unfold Store.lookup at h
  exact List.mem_of_find?_eq_some h

theorem uidString_ne_empty (t : String) : ("uid-" ++ t) ≠ "" := by
  intro h
  have h2 := congrArg String.data h
  cases t with
  | mk l => simp [String.append] at h2

theorem find?_append_single {l : List DnsRecord} {key : String × String} {x : DnsRecord}
    (h : l.find? (fun r => decide (recordKey r = key)) = none) (hx : recordKey x = key) :
    (l ++ [x]).find? (fun r => decide (recordKey r = key)) = some x := by
  rw [List.find?_append, h, Option.none_or]
  simp [List.find?, hx]

theorem map_replace_id {l : List DnsRecord} {key : String × String} {r : DnsRecord}
    (h : ∀ x ∈ l, recordKey x ≠ key) :
    l.map (fun x => if recordKey x = key then r else x) = l := by
  induction l with
  | nil => rfl
  | cons a t ih =>
    rw [List.map_cons, if_neg (h a (List.mem_cons_self a t)),
      ih (fun x hx => h x (List.mem_cons_of_mem a hx))]

theorem find?_map_replace {l : List DnsRecord} {key : String × String} {r : DnsRecord}
    (hr : recordKey r = key)
    (h : l.find? (fun x => decide (recordKey x = key)) ≠ none) :
    (l.map (fun x => if recordKey x = key then r else x)).find?
      (fun x => decide (recordKey x = key)) = some r := by
  induction l with
  | nil => simp [List.find?] at h
  | cons a t ih =>
    by_cases ha : recordKey a = key
    · rw [List.map_cons, if_pos ha]
      exact List.find?_cons_of_pos _ (by simp [hr])
    · rw [List.map_cons, if_neg ha]
      rw [List.find?_cons_of_neg _ (by simp [ha])] at *
      exact ih (by simpa using h)

theorem countP_map_replace {l : List DnsRecord} {key : String × String} {r : DnsRecord}
    (hr : recordKey r = key) :
    (l.map (fun x => if recordKey x = key then r else x)).countP
        (fun x => decide (recordKey x = key)) =
      l.countP (fun x => decide (recordKey x = key)) := by
  induction l with
  | nil => rfl
  | cons a t ih =>
    by_cases ha : recordKey a = key
    · rw [List.map_cons, if_pos ha, List.countP_cons_of_pos _ _ (by simp [hr]),
        List.countP_cons_of_pos _ _ (by simp [ha]), ih]
    · rw [List.map_cons, if_neg ha, List.countP_cons_of_neg _ _ (by simp [ha]),
        List.countP_cons_of_neg _ _ (by simp [ha]), ih]

theorem map_recordKey_replace {l : List DnsRecord} {key : String × String} {r : DnsRecord}
    (hr : recordKey r = key) :
    (l.map (fun x => if recordKey x = key then r else x)).map recordKey =
      l.map recordKey := by
  induction l with
  | nil => rfl
  | cons a t ih =>
    by_cases ha : recordKey a = key
    · rw [List.map_cons, if_pos ha, List.map_cons, List.map_cons, ih, hr, ha]
    · rw [List.map_cons, if_neg ha, List.map_cons, List.map_cons, ih]

theorem map_replace_self {l : List DnsRecord} {key : String × String} {r : DnsRecord}
    (hfind : l.find? (fun x => decide (recordKey x = key)) = some r)
    (hnd : (l.map recordKey).Nodup) :
    l.map (fun x => if recordKey x = key then r else x) = l := by
  induction l with
  | nil => simp [List.find?] at hfind
  | cons a t ih =>
    rw [List.map_cons, List.nodup_cons] at hnd
    by_cases ha : recordKey a = key
    · rw [List.find?_cons_of_pos _ (by simp [ha])] at hfind
      have hra : r = a := (Option.some.inj hfind).symm
      rw [List.map_cons, if_pos ha, hra, map_replace_id]
      intro x hx hxk
      exact hnd.1 (by rw [ha, ← hxk]; exact List.mem_map_of_mem recordKey hx)
    · rw [List.find?_cons_of_neg _ (by simp [ha])] at hfind
      rw [List.map_cons, if_neg ha, ih hfind hnd.2]

theorem find?_filter_not_key (l : List DnsRecord) (key : String × String) :
    (l.filter (fun x => !(decide (recordKey x = key)))).find?
      (fun x => decide (recordKey x = key)) = none := by
  rw [List.find?_eq_none]
  intro x hx
  simpa using (List.mem_filter.mp hx).2

theorem countP_key_le_one {l : List DnsRecord} {key : String × String}
    (hnd : (l.map recordKey).Nodup) :
    l.countP (fun x => decide (recordKey x = key)) ≤ 1 := by
  induction l with
  | nil => simp
  | cons a t ih =>
    rw [List.map_cons, List.nodup_cons] at hnd
    by_cases ha : recordKey a = key
    · rw [List.countP_cons_of_pos _ _ (by simp [ha])]
      have hz : t.countP (fun x => decide (recordKey x = key)) = 0 := by
        rw [List.countP_eq_zero]
        intro x hx
        simp only [decide_eq_true_eq]
        intro hxk
        exact hnd.1 (by rw [ha, ← hxk]; exact List.mem_map_of_mem recordKey hx)
      omega
    · rw [List.countP_cons_of_neg _ _ (by simp [ha])]
      exact ih hnd.2

theorem create_ok {s : Store} {r : DnsRecord}
    (h : s.lookup (recordKey r) = none) :
    s.create r = .ok { records := s.records ++ [{ r with uid := "uid-" ++ toString s.nextUid }],
                       nextUid := s.nextUid + 1 } := by
  simp [Store.create, h]

theorem update_ok {s : Store} {r x : DnsRecord}
    (h : s.lookup (recordKey r) = some x) :
    s.update r = .ok { s with records :=
        (s.records.map (fun y => if recordKey y = recordKey r then r else y)) } := by
  simp [Store.update, h]

theorem delete_ok {s : Store} {r x : DnsRecord}
    (h : s.lookup (recordKey r) = some x) :
    s.delete r = .ok { s with records :=
        (s.records.filter (fun y => !(decide (recordKey y = recordKey r)))) } := by
  simp [Store.delete, h]

@[simp] theorem desiredRecord_uid (ch : ChallengeRequest) (cfg : customDNSProviderConfig)
    (base : DnsRecord) : (desiredRecord ch cfg base).uid = base.uid := rfl

@[simp] theorem desiredRecord_name (ch : ChallengeRequest) (cfg : customDNSProviderConfig)
    (base : DnsRecord) : (desiredRecord ch cfg base).name = base.name := rfl

@[simp] theorem desiredRecord_key (ch : ChallengeRequest) (cfg : customDNSProviderConfig)
    (base : DnsRecord) :
    recordKey (desiredRecord ch cfg base) = (ch.resourceNamespace, base.name) := rfl

@[simp] theorem desiredRecord_idem (ch : ChallengeRequest) (cfg : customDNSProviderConfig)
    (base : DnsRecord) :
    desiredRecord ch cfg (desiredRecord ch cfg base) = desiredRecord ch cfg base := rfl

@[simp] theorem desiredRecord_uid_set (ch : ChallengeRequest) (cfg : customDNSProviderConfig)
    (base : DnsRecord) (u : String) :
    desiredRecord ch cfg { desiredRecord ch cfg base with uid := u } =
      { desiredRecord ch cfg base with uid := u } := rfl

theorem presentT_eq_create {s : Store} {ch : ChallengeRequest} {cfg : customDNSProviderConfig}
    (hcfg : loadConfig ch.config = .ok cfg)
    (hget : s.lookup (ch.resourceNamespace, getRecordName ch.resolvedFQDN) = none) :
    presentT s ch =
      ([.get (ch.resourceNamespace, getRecordName ch.resolvedFQDN),
        .create (ch.resourceNamespace, getRecordName ch.resolvedFQDN)],
       .ok { records := s.records ++
               [{ desiredRecord ch cfg
                    { emptyDnsRecord with name := getRecordName ch.resolvedFQDN } with
                    uid := "uid-" ++ toString s.nextUid }],
             nextUid := s.nextUid + 1 }) := by
  have hck : s.lookup (recordKey (desiredRecord ch cfg
      { emptyDnsRecord with name := getRecordName ch.resolvedFQDN })) = none := hget
  simp [presentT, hcfg, hget, Store.create, hck, emptyDnsRecord]

theorem presentT_eq_update {s : Store} {ch : ChallengeRequest} {cfg : customDNSProviderConfig}
    {found : DnsRecord}
    (hcfg : loadConfig ch.config = .ok cfg)
    (hget : s.lookup (ch.resourceNamespace, getRecordName ch.resolvedFQDN) = some found)
    (huid : found.uid ≠ "") :
    presentT s ch =
      ([.get (ch.resourceNamespace, getRecordName ch.resolvedFQDN),
        .update (ch.resourceNamespace, getRecordName ch.resolvedFQDN)],
       .ok { s with records :=
               (s.records.map (fun y =>
                 if recordKey y = (ch.resourceNamespace, getRecordName ch.resolvedFQDN) then
                   desiredRecord ch cfg found
                 else y)) }) := by
  have hname : found.name = getRecordName ch.resolvedFQDN :=
    congrArg Prod.snd (recordKey_of_lookup_some hget)
  have hku : recordKey (desiredRecord ch cfg found) =
      (ch.resourceNamespace, getRecordName ch.resolvedFQDN) := by
    simp [hname]
  simp [presentT, hcfg, hget, huid, Store.update, hku]

theorem present_establishes (s : Store) (ch : ChallengeRequest)
    (cfg : customDNSProviderConfig) (hwf : s.WF) (hcfg : loadConfig ch.config = .ok cfg) :
    ∃ s1 r1, present s ch = .ok s1 ∧
      s1.lookup (ch.resourceNamespace, getRecordName ch.resolvedFQDN) = some r1 ∧
      r1 = desiredRecord ch cfg r1 ∧ r1.uid ≠ "" ∧
      s1.countAt (ch.resourceNamespace, getRecordName ch.resolvedFQDN) = 1 ∧
      s1.WF := by
  cases hget : s.lookup (ch.resourceNamespace, getRecordName ch.resolvedFQDN) with
  | none =>
    refine ⟨{ records := s.records ++
                [{ desiredRecord ch cfg
                     { emptyDnsRecord with name := getRecordName ch.resolvedFQDN } with
                     uid := "uid-" ++ toString s.nextUid }],
              nextUid := s.nextUid + 1 },
            { desiredRecord ch cfg
                { emptyDnsRecord with name := getRecordName ch.resolvedFQDN } with
                uid := "uid-" ++ toString s.nextUid },
            ?_, ?_, ?_, ?_, ?_, ?_⟩
    · show (presentT s ch).2 = _
      rw [presentT_eq_create hcfg hget]
    · exact find?_append_single hget rfl
    · exact (desiredRecord_uid_set ch cfg _ _).symm
    · exact uidString_ne_empty _
    · show List.countP _ (s.records ++ _) = 1
      rw [List.countP_append]
      have h0 : s.records.countP
          (fun x => decide (recordKey x = (ch.resourceNamespace, getRecordName ch.resolvedFQDN))) = 0 := by
        rw [List.countP_eq_zero]
        intro a ha
        simpa using ((lookup_eq_none_iff s _).mp hget) a ha
      rw [h0]
      simp [recordKey, desiredRecord, emptyDnsRecord]
    · constructor
      · intro r hr
        rcases List.mem_append.mp hr with h | h
        · exact hwf.1 r h
        · rw [List.mem_singleton.mp h]
          exact uidString_ne_empty _
      · rw [List.map_append, List.nodup_append]
        refine ⟨hwf.2, List.nodup_singleton _, ?_⟩
        intro k hk1 hk2
        rw [List.map_singleton, List.mem_singleton] at hk2
        obtain ⟨a, ha, hak⟩ := List.mem_map.mp hk1
        exact ((lookup_eq_none_iff s _).mp hget) a ha (by rw [hak, hk2]; rfl)
  | some found =>
    have hkf := recordKey_of_lookup_some hget
    have hname : found.name = getRecordName ch.resolvedFQDN := congrArg Prod.snd hkf
    have huid : found.uid ≠ "" := hwf.1 found (mem_of_lookup_some hget)
    have hku : recordKey (desiredRecord ch cfg found) =
        (ch.resourceNamespace, getRecordName ch.resolvedFQDN) := by simp [hname]
    have hfind : s.records.find?
        (fun x => decide (recordKey x = (ch.resourceNamespace, getRecordName ch.resolvedFQDN))) =
        some found := hget
    refine ⟨{ s with records :=
                (s.records.map (fun y =>
                  if recordKey y = (ch.resourceNamespace, getRecordName ch.resolvedFQDN) then
                    desiredRecord ch cfg found
                  else y)) },
            desiredRecord ch cfg found, ?_, ?_, ?_, ?_, ?_, ?_⟩
    · show (presentT s ch).2 = _
      rw [presentT_eq_update hcfg hget huid]
    · exact find?_map_replace hku (by simp [hfind])
    · exact (desiredRecord_idem ch cfg found).symm
    · simpa using huid
    · show List.countP _ _ = 1
      rw [countP_map_replace hku]
      have hle := @countP_key_le_one s.records
        (ch.resourceNamespace, getRecordName ch.resolvedFQDN) hwf.2
      have hpos : 0 < s.records.countP
          (fun x => decide (recordKey x = (ch.resourceNamespace, getRecordName ch.resolvedFQDN))) :=
        List.countP_pos_iff.mpr ⟨found, mem_of_lookup_some hget, by simp [hkf]⟩
      omega
    · constructor
      · intro r hr
        obtain ⟨x, hx, hxr⟩ := List.mem_map.mp hr
        by_cases hc : recordKey x = (ch.resourceNamespace, getRecordName ch.resolvedFQDN)
        · rw [if_pos hc] at hxr
          rw [← hxr]
          simpa using huid
        · rw [if_neg hc] at hxr
          rw [← hxr]
          exact hwf.1 x hx
      · rw [map_recordKey_replace hku]
        exact hwf.2

theorem presentT_stable {s : Store} {ch : ChallengeRequest} {cfg : customDNSProviderConfig}
    {r : DnsRecord}
    (hcfg : loadConfig ch.config = .ok cfg)
    (hget : s.lookup (ch.resourceNamespace, getRecordName ch.resolvedFQDN) = some r)
    (huid : r.uid ≠ "") (hfix : r = desiredRecord ch cfg r)
    (hnd : (s.records.map recordKey).Nodup) :
    presentT s ch = ([.get (ch.resourceNamespace, getRecordName ch.resolvedFQDN),
                      .update (ch.resourceNamespace, getRecordName ch.resolvedFQDN)], .ok s) := by
  rw [presentT_eq_update hcfg hget huid]
  have hfind : s.records.find?
      (fun x => decide (recordKey x = (ch.resourceNamespace, getRecordName ch.resolvedFQDN))) =
      some (desiredRecord ch cfg r) := by
    rw [← hfix]; exact hget
  rw [map_replace_self hfind hnd]

/-! ### Helper lemmas about config decoding -/

theorem decodeStringFields_ok_iff (fields : List (String × JsonValue)) :
    (decodeStringFields fields).isOk =
      fields.all (fun p =>
        match p.2 with | .str _ => true | .null => true | _ => false) := by
  induction fields with
  | nil => rfl
  | cons p rest ih =>
    obtain ⟨k, v⟩ := p
    cases v <;> cases hrest : decodeStringFields rest <;>
      simp_all [decodeStringFields, Except.isOk, Except.toBool]
    all_goals exact ih

theorem decodeStringMap_ok_iff (v : JsonValue) :
    (decodeStringMap v).isOk = isStringMapJson v := by
  cases v with
  | obj fields => exact decodeStringFields_ok_iff fields
  | null => rfl
  | bool b => rfl
  | num n => rfl
  | str t => rfl
  | arr l => rfl

theorem applyConfigFields_ok_iff (fields : List (String × JsonValue))
    (cfg : customDNSProviderConfig) :
    (applyConfigFields cfg fields).isOk =
      fields.all (fun p =>
        if equalFold p.1 "labels" ∨ equalFold p.1 "extra" then isStringMapJson p.2
        else true) := by
  induction fields generalizing cfg with
  | nil => rfl
  | cons p rest ih =>
    obtain ⟨k, v⟩ := p
    by_cases hk : equalFold k "labels" = true
    · cases hm : decodeStringMap v with
      | error e =>
        have := decodeStringMap_ok_iff v
        rw [hm] at this
        simp_all [applyConfigFields, Except.isOk, Except.toBool]
      | ok m =>
        have := decodeStringMap_ok_iff v
        rw [hm] at this
        simp_all [applyConfigFields, Except.isOk, Except.toBool, ih]
    · by_cases hk2 : equalFold k "extra" = true
      · cases hm : decodeStringMap v with
        | error e =>
          have := decodeStringMap_ok_iff v
          rw [hm] at this
          simp_all [applyConfigFields, Except.isOk, Except.toBool]
        | ok m =>
          have := decodeStringMap_ok_iff v
          rw [hm] at this
          simp_all [applyConfigFields, Except.isOk, Except.toBool, ih]
      · simp_all [applyConfigFields, ih]

theorem unmarshalConfig_ok_iff (v : JsonValue) :
    (unmarshalConfig v).isOk = matchesTwoMappingShape v := by
  cases v with
  | obj fields => exact applyConfigFields_ok_iff fields { labels := [], extra := [] }
  | null => rfl
  | bool b => rfl
  | num n => rfl
  | str t => rfl
  | arr l => rfl

theorem loadConfig_value_error_iff (v : JsonValue) :
    (∃ e, loadConfig (some (.value v)) = .error e) ↔ matchesTwoMappingShape v = false := by
  have hiff := unmarshalConfig_ok_iff v
  cases hu : unmarshalConfig v with
  | error e =>
    rw [hu] at hiff
    simp only [Except.isOk, Except.toBool] at hiff
    simp [loadConfig, hu, ← hiff]
  | ok c =>
    rw [hu] at hiff
    simp only [Except.isOk, Except.toBool] at hiff
    simp [loadConfig, hu, ← hiff]

theorem decodeStringFields_strings (l : List (String × String)) :
    decodeStringFields (l.map (fun p => (p.1, JsonValue.str p.2))) = .ok l := by
  induction l with
  | nil => rfl
  | cons p rest ih =>
    obtain ⟨k, v⟩ := p
    simp [decodeStringFields, ih]

theorem equalFold_labels_self : equalFold "labels" "labels" = true := rfl

theorem equalFold_extra_labels : equalFold "extra" "labels" = false := rfl

theorem equalFold_extra_self : equalFold "extra" "extra" = true := rfl

/-! ### Common concrete inputs for witnesses -/

/-- A concrete challenge used to instantiate the universally quantified
claims: domain `"example.org."`, token `"tok-1"`, owner `"default"`, no
config. -/
def witnessChallenge : ChallengeRequest :=
  { resolvedFQDN := "example.org.", key := "tok-1", resourceNamespace := "default",
    uid := "w-1", config := none }

/-- A concrete stored record at `witnessChallenge`'s derived identity whose
value differs from the challenge token. -/
def witnessRecord : DnsRecord :=
  { name := "acme-example-org", «namespace» := "default", labels := [],
    uid := "uid-7",
    spec := { name := "example.org", «type» := "TXT",
              value := "other-token", extra := [] } }

/-! ### Claim theorems -/

/-- Claim C2: `getRecordName` agrees with the reference definition from the
spec (lower-case, replace every character outside `[a-z0-9-]` with `'-'`,
strip trailing `'-'`, prepend `"acme-"`), is total and never returns the
empty string (the bare `"acme-"` for fully-degenerate input), and maps
`"Example.COM."` to `"acme-example-com"`. -/
theorem getRecordName_meets_reference :
    (∀ d : String, getRecordName d = deriveRecordNameSpec d) ∧
    (∀ d : String, getRecordName d ≠ "") ∧
    getRecordName "" = "acme-" ∧
    getRecordName "Example.COM." = "acme-example-com" := by
  refine ⟨fun d => rfl, fun d h => ?_, rfl, by decide⟩
  have h2 := congrArg String.data h
  simp [getRecordName, String.append, trimRightDashes] at h2

/-- The §8 scenario challenge: domain `"_acme-challenge.foo.example.com."`,
token `"abc123"`, owner `"default"`, no config. -/
def scenarioChallenge : ChallengeRequest :=
  { resolvedFQDN := "_acme-challenge.foo.example.com.", key := "abc123",
    resourceNamespace := "default", uid := "scenario", config := none }

/-- The store produced by presenting `scenarioChallenge` on an empty store. -/
def scenarioResult : Store :=
  { records := [{ name := "acme--acme-challenge-foo-example-com",
                  «namespace» := "default", labels := [], uid := "uid-0",
                  spec := { name := "_acme-challenge.foo.example.com",
                            «type» := "TXT", value := "abc123", extra := [] } }],
    nextUid := 1 }

/-- Claim C3 (counterexample): the leading underscore of
`"_acme-challenge.foo.example.com."` is replaced by `'-'`, not dropped, so
the created resource is NOT named `"acme-acme-challenge-foo-example-com"`:
after a successful present on the empty store, no resource exists at the
identity the claim names, and the derived name differs from the claimed
one. -/
theorem present_scenario_counterexample :
    present { records := [], nextUid := 0 } scenarioChallenge = .ok scenarioResult ∧
    scenarioResult.lookup ("default", "acme-acme-challenge-foo-example-com") = none ∧
    getRecordName "_acme-challenge.foo.example.com." ≠
      "acme-acme-challenge-foo-example-com" := by
  refine ⟨rfl, rfl, by decide⟩

/-- Claim C3 (amended): presenting domain
`"_acme-challenge.foo.example.com."`, token `"abc123"`, owner `"default"`
on an empty store creates exactly one resource, named
`"acme--acme-challenge-foo-example-com"` (the underscore becomes a hyphen,
yielding a double hyphen after the prefix), namespace `"default"`,
record type `"TXT"`, record value `"abc123"`, and record name
`"_acme-challenge.foo.example.com"` (trailing dot removed). -/
theorem present_scenario_amended :
    present { records := [], nextUid := 0 } scenarioChallenge = .ok scenarioResult ∧
    scenarioResult.lookup ("default", "acme--acme-challenge-foo-example-com") =
      some { name := "acme--acme-challenge-foo-example-com", «namespace» := "default",
             labels := [], uid := "uid-0",
             spec := { name := "_acme-challenge.foo.example.com", «type» := "TXT",
                       value := "abc123", extra := [] } } ∧
    scenarioResult.countAt ("default", "acme--acme-challenge-foo-example-com") = 1 :=
  ⟨rfl, rfl, rfl⟩

/-- Claim C4: when no resource exists at the derived identity, `CleanUp`
succeeds with the store unchanged, performing only the fetch (the not-found
outcome is success, and delete is never called). -/
theorem cleanUp_noop_when_absent (s : Store) (ch : ChallengeRequest)
    (hget : s.lookup (ch.resourceNamespace, getRecordName ch.resolvedFQDN) = none) :
    cleanUpT s ch =
      ([.get (ch.resourceNamespace, getRecordName ch.resolvedFQDN)], .ok s) := by
  simp [cleanUpT, hget]

theorem cleanUp_noop_when_absent_witness :
    cleanUpT { records := [], nextUid := 0 } witnessChallenge =
      ([.get ("default", "acme-example-org")], .ok { records := [], nextUid := 0 }) :=
  cleanUp_noop_when_absent _ _ rfl

/-- Claim C6: when the raw config is present but fails to decode, `Present`
returns the decode error having performed no store operation at all (empty
operation trace), leaving the store untouched. -/
theorem present_aborts_on_config_decode_error (s : Store) (ch : ChallengeRequest)
    (e : String) (h : loadConfig ch.config = .error e) :
    presentT s ch = ([], .error (.configDecode e)) := by
  simp [presentT, h]

theorem present_aborts_on_config_decode_error_witness :
    presentT { records := [], nextUid := 0 }
      { resolvedFQDN := "example.org.", key := "tok-1", resourceNamespace := "default",
        uid := "w-2", config := some .malformed } =
      ([], .error (.configDecode "error decoding solver config: invalid character")) :=
  present_aborts_on_config_decode_error _ _ _ rfl

/-- Claim C7: `loadConfig` of an absent blob is the zero config with no
error; with a present blob it fails exactly when the blob is malformed or
its JSON value does not match the two-mapping shape accepted by the struct
decoder; and on success the resulting `labels`/`extra` equal the decoded
fields. -/
theorem loadConfig_contract :
    loadConfig none = .ok { labels := [], extra := [] } ∧
    (∀ raw : RawJSON, (∃ e, loadConfig (some raw) = .error e) ↔
      (raw = .malformed ∨ ∃ v, raw = .value v ∧ matchesTwoMappingShape v = false)) ∧
    (∀ lm em : List (String × String),
      loadConfig (some (.value (.obj
          [("labels", .obj (lm.map (fun p => (p.1, .str p.2)))),
           ("extra", .obj (em.map (fun p => (p.1, .str p.2))))]))) =
        .ok { labels := lm, extra := em }) := by
  refine ⟨rfl, ?_, ?_⟩
  · intro raw
    cases raw with
    | malformed =>
      constructor
      · intro _
        exact .inl rfl
      · intro _
        exact ⟨"error decoding solver config: invalid character", rfl⟩
    | value v =>
      rw [loadConfig_value_error_iff v]
      constructor
      · intro hv
        exact .inr ⟨v, rfl, hv⟩
      · rintro (h | ⟨v2, hv2, hm⟩)
        · exact RawJSON.noConfusion h
        · injection hv2 with h2
          subst h2
          exact hm
  · intro lm em
    simp [loadConfig, unmarshalConfig, applyConfigFields, decodeStringMap,
      decodeStringFields_strings, equalFold_labels_self, equalFold_extra_labels,
      equalFold_extra_self]

theorem loadConfig_contract_witness :
    ∃ e, loadConfig (some .malformed) = .error e :=
  (loadConfig_contract.2.1 .malformed).mpr (.inl rfl)

/-- Claim C10: present inputs whose JSON value unmarshals into the struct
without a type mismatch — such as `null` or the empty object — yield the
zero config with no error, indistinguishable from the absent-config case;
the error branch is reached only for malformed bytes or a value outside
the decodable shape. -/
theorem loadConfig_null_like_inputs :
    loadConfig (some (.value .null)) = .ok { labels := [], extra := [] } ∧
    loadConfig (some (.value (.obj []))) = .ok { labels := [], extra := [] } ∧
    (∀ raw : RawJSON, ∀ e : String, loadConfig (some raw) = .error e →
      raw = .malformed ∨ ∃ v, raw = .value v ∧ matchesTwoMappingShape v = false) := by
  refine ⟨rfl, rfl, ?_⟩
  intro raw e herr
  cases raw with
  | malformed => exact .inl rfl
  | value v => exact .inr ⟨v, rfl, (loadConfig_value_error_iff v).mp ⟨e, herr⟩⟩

theorem loadConfig_null_like_inputs_witness :
    RawJSON.malformed = .malformed ∨
      ∃ v, RawJSON.malformed = .value v ∧ matchesTwoMappingShape v = false :=
  loadConfig_null_like_inputs.2.2 .malformed
    "error decoding solver config: invalid character" rfl

/-- Claim C9: when a resource exists at the derived identity — whatever its
record value, in particular one differing from the challenge token —
`CleanUp` deletes it and succeeds: the stored value is never compared to the
token. -/
theorem cleanUp_deletes_regardless_of_value (s : Store) (ch : ChallengeRequest)
    (r : DnsRecord)
    (hget : s.lookup (ch.resourceNamespace, getRecordName ch.resolvedFQDN) = some r) :
    cleanUpT s ch =
      ([.get (ch.resourceNamespace, getRecordName ch.resolvedFQDN),
        .delete (ch.resourceNamespace, getRecordName ch.resolvedFQDN)],
       .ok { s with records :=
         (s.records.filter (fun y =>
           !(decide (recordKey y = (ch.resourceNamespace, getRecordName ch.resolvedFQDN))))) }) ∧
    Store.lookup
      { s with records :=
         (s.records.filter (fun y =>
           !(decide (recordKey y = (ch.resourceNamespace, getRecordName ch.resolvedFQDN))))) }
      (ch.resourceNamespace, getRecordName ch.resolvedFQDN) = none := by
  have hk := recordKey_of_lookup_some hget
  have hdel : s.delete r = .ok { s with records :=
      (s.records.filter (fun y => !(decide (recordKey y = recordKey r)))) } :=
    delete_ok (by rw [hk]; exact hget)
  constructor
  · simp only [cleanUpT, hget]
    rw [hdel, hk]
  · exact find?_filter_not_key _ _

theorem cleanUp_deletes_regardless_of_value_witness :
    witnessRecord.spec.value ≠ witnessChallenge.key ∧
    cleanUpT { records := [witnessRecord], nextUid := 8 } witnessChallenge =
      ([.get ("default", "acme-example-org"), .delete ("default", "acme-example-org")],
       .ok { records := [], nextUid := 8 }) :=
  ⟨by decide,
   (cleanUp_deletes_regardless_of_value
     { records := [witnessRecord], nextUid := 8 } witnessChallenge witnessRecord rfl).1⟩

/-- Claim C8: with a decodable config, `Present` branches solely on the
outcome of the fetch at the derived identity: when nothing is found it
performs get-then-create (never update) of the desired body; when a record
with a non-empty UID is found it performs get-then-update (never create),
overwriting exactly the mutable fields while keeping the found record's UID
and name. -/
theorem present_branching (s : Store) (ch : ChallengeRequest)
    (cfg : customDNSProviderConfig) (hcfg : loadConfig ch.config = .ok cfg) :
    (s.lookup (ch.resourceNamespace, getRecordName ch.resolvedFQDN) = none →
      presentT s ch =
        ([.get (ch.resourceNamespace, getRecordName ch.resolvedFQDN),
          .create (ch.resourceNamespace, getRecordName ch.resolvedFQDN)],
         .ok { records := s.records ++
                 [{ desiredRecord ch cfg
                      { emptyDnsRecord with name := getRecordName ch.resolvedFQDN } with
                      uid := "uid-" ++ toString s.nextUid }],
               nextUid := s.nextUid + 1 })) ∧
    (∀ r, s.lookup (ch.resourceNamespace, getRecordName ch.resolvedFQDN) = some r →
      r.uid ≠ "" →
      presentT s ch =
        ([.get (ch.resourceNamespace, getRecordName ch.resolvedFQDN),
          .update (ch.resourceNamespace, getRecordName ch.resolvedFQDN)],
         .ok { s with records :=
           (s.records.map (fun y =>
             if recordKey y = (ch.resourceNamespace, getRecordName ch.resolvedFQDN) then
               desiredRecord ch cfg r
             else y)) }) ∧
      Store.lookup
        { s with records :=
           (s.records.map (fun y =>
             if recordKey y = (ch.resourceNamespace, getRecordName ch.resolvedFQDN) then
               desiredRecord ch cfg r
             else y)) }
        (ch.resourceNamespace, getRecordName ch.resolvedFQDN) =
          some (desiredRecord ch cfg r) ∧
      (desiredRecord ch cfg r).uid = r.uid ∧
      (desiredRecord ch cfg r).name = r.name) := by
  constructor
  · intro hget
    exact presentT_eq_create hcfg hget
  · intro r hget huid
    have hname : r.name = getRecordName ch.resolvedFQDN :=
      congrArg Prod.snd (recordKey_of_lookup_some hget)
    have hfind : s.records.find?
        (fun x => decide (recordKey x = (ch.resourceNamespace, getRecordName ch.resolvedFQDN))) =
        some r := hget
    refine ⟨presentT_eq_update hcfg hget huid, ?_, rfl, rfl⟩
    exact find?_map_replace (by simp [hname]) (by simp [hfind])

theorem present_branching_witness :
    presentT { records := [], nextUid := 0 } witnessChallenge =
      ([.get ("default", "acme-example-org"), .create ("default", "acme-example-org")],
       .ok { records := [{ name := "acme-example-org", «namespace» := "default",
                           labels := [], uid := "uid-0",
                           spec := { name := "example.org", «type» := "TXT",
                                     value := "tok-1", extra := [] } }],
             nextUid := 1 }) :=
  (present_branching { records := [], nextUid := 0 } witnessChallenge
    { labels := [], extra := [] } rfl).1 rfl

/-- Claim C1: for a well-formed store and a challenge whose config decodes,
presenting twice with the identical challenge succeeds both times, the
second call goes through the update branch, the observable store state after
the second call equals the state after the first, and exactly one resource
sits at the derived identity with field values equal to the desired body
(its mutable fields are a fixed point of the desired-body overwrite). -/
theorem present_idempotent_upsert (s : Store) (ch : ChallengeRequest)
    (cfg : customDNSProviderConfig) (hwf : s.WF) (hcfg : loadConfig ch.config = .ok cfg) :
    ∃ s1 r1, present s ch = .ok s1 ∧
      present s1 ch = .ok s1 ∧
      (presentT s1 ch).1 =
        [.get (ch.resourceNamespace, getRecordName ch.resolvedFQDN),
         .update (ch.resourceNamespace, getRecordName ch.resolvedFQDN)] ∧
      s1.countAt (ch.resourceNamespace, getRecordName ch.resolvedFQDN) = 1 ∧
      s1.lookup (ch.resourceNamespace, getRecordName ch.resolvedFQDN) = some r1 ∧
      r1 = desiredRecord ch cfg r1 := by
  obtain ⟨s1, r1, h1, h2, h3, h4, h5, h6⟩ := present_establishes s ch cfg hwf hcfg
  have hst := presentT_stable hcfg h2 h4 h3 h6.2
  refine ⟨s1, r1, h1, ?_, ?_, h5, h2, h3⟩
  · show (presentT s1 ch).2 = _
    rw [hst]
  · rw [hst]

theorem present_idempotent_upsert_witness :
    ∃ s1 r1, present { records := [], nextUid := 0 } witnessChallenge = .ok s1 ∧
      present s1 witnessChallenge = .ok s1 ∧
      s1.countAt ("default", "acme-example-org") = 1 ∧
      s1.lookup ("default", "acme-example-org") = some r1 := by
  obtain ⟨s1, r1, h1, h2, _, h4, h5, _⟩ :=
    present_idempotent_upsert { records := [], nextUid := 0 } witnessChallenge
      { labels := [], extra := [] } ⟨by simp, by simp⟩ rfl
  exact ⟨s1, r1, h1, h2, h4, h5⟩

/-- Claim C5: for a well-formed store and a challenge whose config decodes,
a successful present followed by a successful cleanUp leaves no resource at
the derived identity. -/
theorem present_then_cleanUp_removes (s : Store) (ch : ChallengeRequest)
    (cfg : customDNSProviderConfig) (hwf : s.WF) (hcfg : loadConfig ch.config = .ok cfg) :
    ∃ s1 s2, present s ch = .ok s1 ∧ cleanUp s1 ch = .ok s2 ∧
      s2.lookup (ch.resourceNamespace, getRecordName ch.resolvedFQDN) = none := by
  obtain ⟨s1, r1, h1, h2, h3, h4, h5, h6⟩ := present_establishes s ch cfg hwf hcfg
  have hk := recordKey_of_lookup_some h2
  have hdel : s1.delete r1 = .ok { s1 with records :=
      (s1.records.filter (fun y => !(decide (recordKey y = recordKey r1)))) } :=
    delete_ok (by rw [hk]; exact h2)
  refine ⟨s1, { s1 with records :=
      (s1.records.filter (fun y => !(decide (recordKey y = recordKey r1)))) }, h1, ?_, ?_⟩
  · show (cleanUpT s1 ch).2 = _
    simp only [cleanUpT, h2]
    rw [hdel]
  · show Store.lookup _ _ = none
    simp only [Store.lookup, hk]
    exact find?_filter_not_key _ _

theorem present_then_cleanUp_removes_witness :
    ∃ s1 s2, present { records := [], nextUid := 0 } witnessChallenge = .ok s1 ∧
      cleanUp s1 witnessChallenge = .ok s2 ∧
      s2.lookup ("default", "acme-example-org") = none :=
  present_then_cleanUp_removes { records := [], nextUid := 0 } witnessChallenge
    { labels := [], extra := [] } ⟨by simp, by simp⟩ rfl
